import Mathlib

/-!
Shader front-end (`video_core/shader/shader.cpp`)

A shallow embedding of the attribute-buffer / register-file marshalling code and of the
engine selector of `Pica::Shader`, together with the properties proved about it.

Conventions of the embedding:

* C arrays (`attr[]`, `registers.input[]`, `registers.output[]`, the `float24` cells of an
  `OutputVertex`) are total maps from indices to values; an assignment `a[i] = v` is
  `Function.update a i v`.
* `unsigned` values are natural numbers; the one place where 32-bit wrap-around can be
  observed (the `++attr` of `LoadInput`) reduces modulo `2 ^ 32`.
* `float24` is a type parameter: its representation lives in `video_core/pica.h`.
-/

namespace Pica

namespace Shader

/-! ## Data model -/

/-- Four-component vector `Math::Vec4<T>`. -/
structure Vec4 (α : Type) where
  x : α
  y : α
  z : α
  w : α
deriving DecidableEq

/-- Component access `v[comp]` of `Math::Vec4<T>` for `comp` in `0..3`. -/
def Vec4.get {α : Type} (v : Vec4 α) (comp : Nat) : α :=
  match comp with
  | 0 => v.x
  | 1 => v.y
  | 2 => v.z
  | _ => v.w

/-- One vertex's raw attributes: `Math::Vec4<float24> attr[16]`, indexed by slot. -/
structure AttributeBuffer (float24 : Type) where
  attr : Nat → Vec4 float24

/-- The part of `Regs::ShaderConfig` read by the marshalling code.  The accessor
`GetRegisterForAttribute` is declared in `video_core/pica.h`; it is carried as a field. -/
structure ShaderConfig where
  max_input_attribute_index : Nat
  GetRegisterForAttribute : Nat → Nat
  output_mask : Nat

/-- Register file: `registers.input[]` and `registers.output[]`. -/
structure Registers (float24 : Type) where
  input : Nat → Vec4 float24
  output : Nat → Vec4 float24

/-- Working memory `UnitState` of one shader unit. -/
structure UnitState (float24 : Type) where
  registers : Registers float24

/-! ## `UnitState::WriteOutput` -/

/-- Modelled from the spec: iterating a `Common::BitSet<u32>` (declared in
`common/bit_set.h`) visits the set bits of the 32-bit mask in ascending index order. -/
def BitSet (mask : Nat) : List Nat :=
  (List.range 32).filter fun i => (mask % 2 ^ 32).testBit i

/-- Body of the range-for of `WriteOutput`: `output.attr[output_i++] = registers.output[reg]`.
The accumulator is the pair `(output_i, output)`. -/
def WriteOutput.body {float24 : Type} (st : UnitState float24)
    (acc : Nat × AttributeBuffer float24) (reg : Nat) : Nat × AttributeBuffer float24 :=
  (acc.1 + 1, ⟨Function.update acc.2.attr acc.1 (st.registers.output reg)⟩)

/-- The loop of `WriteOutput`, returning the final `output_i` together with the buffer. -/
def WriteOutput.loop {float24 : Type} (st : UnitState float24) (config : ShaderConfig)
    (output : AttributeBuffer float24) : Nat × AttributeBuffer float24 :=
  (BitSet config.output_mask).foldl (WriteOutput.body st) (0, output)

/-- The method `void UnitState::WriteOutput(const Regs::ShaderConfig& config,
AttributeBuffer& output)`: the destination buffer after the call. -/
def WriteOutput {float24 : Type} (st : UnitState float24) (config : ShaderConfig)
    (output : AttributeBuffer float24) : AttributeBuffer float24 :=
  (WriteOutput.loop st config output).2

/-- Body of the range-for of `WriteOutput` with the two array accesses of the iteration
recorded rather than performed: the pair (destination slot `output_i`, register `reg`). -/
def WriteOutput.accessBody (acc : Nat × List (Nat × Nat)) (reg : Nat) :
    Nat × List (Nat × Nat) :=
  (acc.1 + 1, acc.2 ++ [(acc.1, reg)])

/-- The accesses of `WriteOutput`, one pair (destination slot written, output register read)
per iteration, in iteration order. -/
def WriteOutput.accesses (config : ShaderConfig) : List (Nat × Nat) :=
  ((BitSet config.output_mask).foldl WriteOutput.accessBody (0, [])).2

/-! ## Specification vocabulary for masks -/

/-- Population count of a 32-bit mask: the number of bit positions below 32 that are set. -/
def popcount (m : Nat) : Nat :=
  ((Finset.range 32).filter fun i => m.testBit i = true).card

/-- Number of set bits of `m` strictly below position `idx`. -/
def setBitsBelow (m idx : Nat) : Nat :=
  ((Finset.range idx).filter fun i => m.testBit i = true).card

/-! ## `UnitState::LoadInput` -/

/-- The `for (unsigned attr = 0; attr <= max_attribute; ++attr)` loop of `LoadInput`, run
for at most `fuel` evaluations of the loop condition.  `attr` is a 32-bit counter, so the
increment wraps modulo `2 ^ 32`; `none` means the fuel ran out before the loop exited. -/
def LoadInput.loop {float24 : Type} (config : ShaderConfig) (input : AttributeBuffer float24)
    (max_attribute : Nat) : Nat → Nat → UnitState float24 → Option (UnitState float24)
  | 0, _, _ => none
  | fuel + 1, attr, st =>
    if attr ≤ max_attribute then
      LoadInput.loop config input max_attribute fuel ((attr + 1) % 2 ^ 32)
        { st with registers :=
            { st.registers with
              input := Function.update st.registers.input
                (config.GetRegisterForAttribute attr) (input.attr attr) } }
    else
      some st

/-- The method `void UnitState::LoadInput(const Regs::ShaderConfig& config,
const AttributeBuffer& input)`: the unit state after the call, or `none` when `fuel` loop tests do not suffice.  The bound
`max_attribute` is the unsigned register field `config.max_input_attribute_index`. -/
def LoadInput {float24 : Type} (fuel : Nat) (st : UnitState float24) (config : ShaderConfig)
    (input : AttributeBuffer float24) : Option (UnitState float24) :=
  LoadInput.loop config input config.max_input_attribute_index fuel 0 st

/-- The loop of `LoadInput` with the attribute slots it reads recorded, in order, rather
than copied: the same loop test, 32-bit increment and fuel as `LoadInput.loop`. -/
def LoadInput.reads (max_attribute : Nat) : Nat → Nat → List Nat → Option (List Nat)
  | 0, _, _ => none
  | fuel + 1, attr, log =>
    if attr ≤ max_attribute then
      LoadInput.reads max_attribute fuel ((attr + 1) % 2 ^ 32) (log ++ [attr])
    else
      some log

/-- The identity engine of the round-trip property: it copies every input register to the
output register of the same index and changes nothing else. -/
def identityEngine {float24 : Type} (st : UnitState float24) : UnitState float24 :=
  { st with registers := { st.registers with output := st.registers.input } }

/-! ## Native floating point -/

/-- Values of the host `float` as far as `std::fabs` and `std::fmin` can tell them apart:
not-a-number, the two infinities, and finite values (a finite `float` is a rational). -/
inductive F32 where
  | nan
  | negInf
  | posInf
  | finite (q : ℚ)
deriving DecidableEq

/-- The constant `1.0f`. -/
def F32.one : F32 := F32.finite 1

/-- The library function `std::fabs`: clears the sign; a NaN stays a NaN. -/
def fabs : F32 → F32
  | F32.nan => F32.nan
  | F32.negInf => F32.posInf
  | F32.posInf => F32.posInf
  | F32.finite q => F32.finite (abs q)

/-- The library function `std::fmin`: the smaller argument; when one argument is a NaN the
other is returned. -/
def fmin : F32 → F32 → F32
  | F32.nan, y => y
  | x, F32.nan => x
  | F32.negInf, _ => F32.negInf
  | _, F32.negInf => F32.negInf
  | F32.posInf, y => y
  | x, F32.posInf => x
  | F32.finite a, F32.finite b => F32.finite (min a b)

/-- The host float is a number `x` with `0 ≤ x ≤ 1.0` (so neither a NaN nor infinite). -/
def F32.InUnitRange : F32 → Prop
  | F32.finite q => 0 ≤ q ∧ q ≤ 1
  | _ => False

instance F32.decidableInUnitRange : DecidablePred F32.InUnitRange := fun x =>
  match x with
  | F32.finite q => inferInstanceAs (Decidable (0 ≤ q ∧ q ≤ 1))
  | F32.nan => isFalse (fun h => h)
  | F32.negInf => isFalse (fun h => h)
  | F32.posInf => isFalse (fun h => h)

/-- The operations of `float24` used by the assembler.  Their declarations are in
`video_core/pica.h`; they are parameters of the embedding.  `zero` is the value whose
storage is all-zero bytes, which is what `memset(out, 0, sizeof(*out))` leaves. -/
structure Float24Ops (float24 : Type) where
  ToFloat32 : float24 → F32
  FromFloat32 : F32 → float24
  zero : float24

/-! ## `OutputVertex::FromAttributeBuffer` -/

/-- One entry `regs.vs_output_attributes[i]`: the semantic ids of the four components. -/
structure VSOutputAttributes where
  map_x : Nat
  map_y : Nat
  map_z : Nat
  map_w : Nat

/-- The local array `u32 semantics[4] = {map_x, map_y, map_z, map_w}`. -/
def VSOutputAttributes.semantics (m : VSOutputAttributes) (comp : Nat) : Nat :=
  match comp with
  | 0 => m.map_x
  | 1 => m.map_y
  | 2 => m.map_z
  | _ => m.map_w

/-- The part of `Regs` read by the assembler. -/
structure Regs where
  vs_output_total : Nat
  vs_output_attributes : Nat → VSOutputAttributes

/-- Constants of `video_core/pica.h` and `video_core/shader/shader.h` the assembler depends
on: the sentinel `Regs::VSOutputAttributes::INVALID`, and the index of the `float24` cell
at which the member `color` starts inside an `OutputVertex`. -/
structure VertexLayout where
  INVALID : Nat
  color : Nat

/-- An `OutputVertex` seen the way the code addresses it through `(float24*)&ret`: a row of
`float24` cells counted from the start of the record. -/
structure OutputVertex (float24 : Type) where
  cell : Nat → float24

/-- Body of the inner loop for component `comp` of slot `i`:
`out = ((float24*)&ret) + semantics[comp]`, then either `*out = input.attr[i][comp]` or
`memset(out, 0, sizeof(*out))`. -/
def FromAttributeBuffer.component {float24 : Type} (L : VertexLayout) (ops : Float24Ops float24)
    (regs : Regs) (input : AttributeBuffer float24) (i : Nat) (ret : OutputVertex float24)
    (comp : Nat) : OutputVertex float24 :=
  let out := (regs.vs_output_attributes i).semantics comp
  if (regs.vs_output_attributes i).semantics comp ≠ L.INVALID then
    ⟨Function.update ret.cell out ((input.attr i).get comp)⟩
  else
    ⟨Function.update ret.cell out ops.zero⟩

/-- The value the inner loop body stores for component `comp` of slot `i`: the attribute
component when the semantic id is valid, zero when it is `INVALID`. -/
def FromAttributeBuffer.stored {float24 : Type} (L : VertexLayout) (ops : Float24Ops float24)
    (regs : Regs) (input : AttributeBuffer float24) (i comp : Nat) : float24 :=
  if (regs.vs_output_attributes i).semantics comp ≠ L.INVALID then (input.attr i).get comp
  else ops.zero

/-- Body of the outer loop for slot `i`: `for (unsigned comp = 0; comp < 4; ++comp)`. -/
def FromAttributeBuffer.slot {float24 : Type} (L : VertexLayout) (ops : Float24Ops float24)
    (regs : Regs) (input : AttributeBuffer float24) (ret : OutputVertex float24) (i : Nat) :
    OutputVertex float24 :=
  (List.range 4).foldl (FromAttributeBuffer.component L ops regs input i) ret

/-- The mapping loop `for (unsigned int i = 0; i < num_attributes; ++i)` with
`num_attributes = regs.vs_output_total`, started on the record `ret`. -/
def FromAttributeBuffer.mapping {float24 : Type} (L : VertexLayout) (ops : Float24Ops float24)
    (regs : Regs) (input : AttributeBuffer float24) (ret : OutputVertex float24) :
    OutputVertex float24 :=
  (List.range regs.vs_output_total).foldl (FromAttributeBuffer.slot L ops regs input) ret

/-- Body of the colour loop:
`ret.color[i] = float24::FromFloat32(std::fmin(std::fabs(ret.color[i].ToFloat32()), 1.0f))`. -/
def FromAttributeBuffer.clamp {float24 : Type} (L : VertexLayout) (ops : Float24Ops float24)
    (ret : OutputVertex float24) (i : Nat) : OutputVertex float24 :=
  ⟨Function.update ret.cell (L.color + i)
    (ops.FromFloat32 (fmin (fabs (ops.ToFloat32 (ret.cell (L.color + i)))) F32.one))⟩

/-- The function `OutputVertex OutputVertex::FromAttributeBuffer(const Regs& regs,
AttributeBuffer& input)`.
The local `OutputVertex ret;` is declared without an initialiser; `uninit` is the content
its storage happens to have. -/
def FromAttributeBuffer {float24 : Type} (L : VertexLayout) (ops : Float24Ops float24)
    (regs : Regs) (input : AttributeBuffer float24) (uninit : OutputVertex float24) :
    OutputVertex float24 :=
  (List.range 4).foldl (FromAttributeBuffer.clamp L ops)
    (FromAttributeBuffer.mapping L ops regs input uninit)

/-! ## Engine selection: `GetEngine` / `Shutdown` -/

/-- A `ShaderEngine*` as returned by `GetEngine`: the null pointer, the address of the
static `interpreter_engine`, or the address of the `JitX64Engine` instance number `id`
(instances are numbered in the order `std::make_unique` constructs them). -/
inductive EnginePtr where
  | null
  | interpreter_engine
  | jit (id : Nat)
deriving DecidableEq

/-- The file-scope state of the selector.  `jit_engine` is the `std::unique_ptr`: `none` is
`nullptr`, `some id` owns instance `id`.  `constructed` counts the `JitX64Engine` instances
constructed so far; it is what gives a newly constructed instance its identity. -/
structure Selector where
  jit_engine : Option Nat
  constructed : Nat
deriving DecidableEq

/-- State at program start: `jit_engine` is null and nothing has been constructed. -/
def Selector.start : Selector := ⟨none, 0⟩

/-- The raw pointer `jit_engine.get()`. -/
def Selector.get (s : Selector) : EnginePtr :=
  match s.jit_engine with
  | none => EnginePtr.null
  | some id => EnginePtr.jit id

/-- The function `ShaderEngine* GetEngine()`: the returned pointer and the selector state afterwards.
`x86_64` says whether the `ARCHITECTURE_x86_64` blocks are compiled in, and
`g_shader_jit_enabled` is the value of `VideoCore::g_shader_jit_enabled` read by the call. -/
def GetEngine (x86_64 : Bool) (g_shader_jit_enabled : Bool) (s : Selector) :
    EnginePtr × Selector :=
  if x86_64 && g_shader_jit_enabled then
    let s1 : Selector :=
      if s.jit_engine = none then
        { jit_engine := some s.constructed, constructed := s.constructed + 1 }
      else s
    (s1.get, s1)
  else
    (EnginePtr.interpreter_engine, s)

/-- The function `void Shutdown()`: resets `jit_engine` to null where the JIT is compiled in. -/
def Shutdown (x86_64 : Bool) (s : Selector) : Selector :=
  if x86_64 then { s with jit_engine := none } else s

/-- A call made by the rest of the emulator into the selector. -/
inductive Call where
  | GetEngine (g_shader_jit_enabled : Bool)
  | Shutdown

/-- Runs a sequence of calls, returning the final state and the pointers returned by the
`GetEngine` calls, in call order. -/
def run (x86_64 : Bool) : Selector → List Call → Selector × List EnginePtr
  | s, [] => (s, [])
  | s, Call.GetEngine flag :: calls =>
    ((run x86_64 (GetEngine x86_64 flag s).2 calls).1,
      (GetEngine x86_64 flag s).1 :: (run x86_64 (GetEngine x86_64 flag s).2 calls).2)
  | s, Call.Shutdown :: calls => run x86_64 (Shutdown x86_64 s) calls

/-- Invariant of the selector: every instance owned by `jit_engine` has been constructed. -/
def Selector.Owned (s : Selector) : Prop :=
  ∀ id, s.jit_engine = some id → id < s.constructed

/-! ## Example data -/

/-- Layout used in the examples: `INVALID` is 31 and `color` starts at cell 8, after the
four cells of `pos` and the four cells of `quat`. -/
def exampleLayout : VertexLayout := ⟨31, 8⟩

/-- A `float24` that stores the host float unchanged; its zero is `0.0`. -/
def exampleOps : Float24Ops F32 := ⟨id, id, F32.finite 0⟩

/-- Two output slots: slot 0 maps to (pos.x, pos.y, color.r, color.g), slot 1 maps to
(pos.x, color.r, INVALID, INVALID). -/
def exampleRegs : Regs :=
  { vs_output_total := 2
    vs_output_attributes := fun i => if i = 0 then ⟨0, 1, 8, 9⟩ else ⟨0, 8, 31, 31⟩ }

/-- One output slot mapping to (pos.x, pos.y, pos.z, INVALID): nothing maps to pos.w. -/
def unmappedRegs : Regs :=
  { vs_output_total := 1
    vs_output_attributes := fun _ => ⟨0, 1, 2, 31⟩ }

/-- Attribute values of the examples. -/
def exampleAttrs : AttributeBuffer F32 :=
  ⟨fun a =>
    if a = 0 then ⟨F32.finite (1 / 2), F32.finite 2, F32.finite (-1 / 4), F32.finite 5⟩
    else ⟨F32.finite (-7), F32.finite (-3), F32.finite 0, F32.finite 0⟩⟩

/-- Storage of the local `ret` before assembly in the examples: every cell holds 7.0. -/
def exampleGarbage : OutputVertex F32 := ⟨fun _ => F32.finite 7⟩

/-- One output slot mapping its four components to color.r, color.g, color.b, color.a. -/
def colorRegs : Regs :=
  { vs_output_total := 1
    vs_output_attributes := fun _ => ⟨8, 9, 10, 11⟩ }

/-- Attribute values outside the unit range: a NaN, minus infinity, `-2.0` and `0.25`. -/
def extremeAttrs : AttributeBuffer F32 :=
  ⟨fun _ => ⟨F32.nan, F32.negInf, F32.finite (-2), F32.finite (1 / 4)⟩⟩

/-- Configuration of the round-trip example: slots 0..2 are loaded with the identity mapping
and the output mask is `0b111`. -/
def roundTripConfig : ShaderConfig :=
  { max_input_attribute_index := 2
    GetRegisterForAttribute := fun a => a
    output_mask := 0b111 }

/-- A destination buffer whose slots are all zero before the store. -/
def exampleDest : AttributeBuffer Nat :=
  ⟨fun _ => ⟨0, 0, 0, 0⟩⟩

/-- A register file whose registers are recognisable by their index. -/
def exampleState : UnitState Nat :=
  ⟨⟨fun r => ⟨100 + r, 200 + r, 300 + r, 400 + r⟩, fun r => ⟨10 * r, 10 * r + 1, 10 * r + 2, 10 * r + 3⟩⟩⟩

/-- An attribute buffer whose slots are recognisable by their index. -/
def exampleBuffer : AttributeBuffer Nat :=
  ⟨fun a => ⟨1000 + a, 2000 + a, 3000 + a, 4000 + a⟩⟩

/-- Configuration of the examples: slots 0..2 are loaded with the mapping 0→5, 1→0, 2→5,
and the output mask is `0b1010`. -/
def exampleConfig : ShaderConfig :=
  { max_input_attribute_index := 2
    GetRegisterForAttribute := fun a => if a = 1 then 0 else 5
    output_mask := 0b1010 }

/-! ## Lemmas: filtered ranges -/

theorem card_filter_range_eq_length (p : Nat → Bool) (n : Nat) :
    ((Finset.range n).filter fun i => p i = true).card
      = ((List.range n).filter p).length := by
  induction n with
  | zero => simp
  | succ n ih =>
    rw [Finset.range_succ, Finset.filter_insert, List.range_succ, List.filter_append,
      List.length_append]
    by_cases h : p n = true
    · rw [if_pos h, Finset.card_insert_of_not_mem (by simp), ih]
      simp [h]
    · rw [if_neg h, ih]
      simp [h]

/-- The `k`-th element of an ascending filtered range satisfies the predicate, lies in the
range, and has exactly `k` satisfying positions below it. -/
theorem filter_range_getElem (p : Nat → Bool) (n k : Nat)
    (hk : k < ((List.range n).filter p).length) :
    ∃ idx, ((List.range n).filter p)[k]? = some idx ∧ idx < n ∧ p idx = true ∧
      ((List.range idx).filter p).length = k := by
  induction n with
  | zero => simp at hk
  | succ n ih =>
    rw [List.range_succ, List.filter_append] at hk ⊢
    by_cases hlt : k < ((List.range n).filter p).length
    · obtain ⟨idx, h1, h2, h3, h4⟩ := ih hlt
      refine ⟨idx, ?_, by omega, h3, h4⟩
      rw [List.getElem?_append_left hlt]
      exact h1
    · have hpn : p n = true := by
        by_contra hc
        simp [hc] at hk
        omega
      have hkeq : k = ((List.range n).filter p).length := by
        simp [hpn] at hk
        omega
      refine ⟨n, ?_, by omega, hpn, hkeq.symm⟩
      rw [List.getElem?_append_right (by omega)]
      simp [hpn, hkeq]

/-! ## Lemmas: the packing loop -/

theorem WriteOutput.foldl_fst {float24 : Type} (st : UnitState float24) (regs : List Nat)
    (acc : Nat × AttributeBuffer float24) :
    (regs.foldl (WriteOutput.body st) acc).1 = acc.1 + regs.length := by
  induction regs generalizing acc with
  | nil => simp
  | cons r rs ih =>
    rw [List.foldl_cons, ih]
    simp [WriteOutput.body]
    omega

theorem WriteOutput.foldl_below {float24 : Type} (st : UnitState float24) (regs : List Nat)
    (acc : Nat × AttributeBuffer float24) (j : Nat) (hj : j < acc.1) :
    (regs.foldl (WriteOutput.body st) acc).2.attr j = acc.2.attr j := by
  induction regs generalizing acc with
  | nil => simp
  | cons r rs ih =>
    rw [List.foldl_cons, ih _ (by simp [WriteOutput.body]; omega)]
    simp only [WriteOutput.body]
    rw [Function.update_noteq (by omega)]

theorem WriteOutput.foldl_above {float24 : Type} (st : UnitState float24) (regs : List Nat)
    (acc : Nat × AttributeBuffer float24) (j : Nat) (hj : acc.1 + regs.length ≤ j) :
    (regs.foldl (WriteOutput.body st) acc).2.attr j = acc.2.attr j := by
  induction regs generalizing acc with
  | nil => simp
  | cons r rs ih =>
    simp only [List.length_cons] at hj
    rw [List.foldl_cons, ih _ (by simp [WriteOutput.body]; omega)]
    simp only [WriteOutput.body]
    rw [Function.update_noteq (by omega)]

theorem WriteOutput.foldl_slot {float24 : Type} (st : UnitState float24) (regs : List Nat)
    (acc : Nat × AttributeBuffer float24) (k idx : Nat) (hk : regs[k]? = some idx) :
    (regs.foldl (WriteOutput.body st) acc).2.attr (acc.1 + k) = st.registers.output idx := by
  induction regs generalizing acc k with
  | nil => simp at hk
  | cons r rs ih =>
    rw [List.foldl_cons]
    cases k with
    | zero =>
      simp only [List.getElem?_cons_zero, Option.some.injEq] at hk
      rw [WriteOutput.foldl_below _ _ _ _ (by simp [WriteOutput.body])]
      simp [WriteOutput.body, hk]
    | succ k =>
      simp only [List.getElem?_cons_succ] at hk
      have := ih (WriteOutput.body st acc r) k hk
      simp only [WriteOutput.body] at this ⊢
      rw [← this]
      congr 1
      omega

theorem testBit_mod_u32 (m i : Nat) (hi : i < 32) :
    (m % 2 ^ 32).testBit i = m.testBit i := by
  rw [Nat.testBit_mod_two_pow]
  simp [hi]

theorem BitSet_eq (m : Nat) : BitSet m = (List.range 32).filter fun i => m.testBit i := by
  unfold BitSet
  apply List.filter_congr
  intro i hi
  exact testBit_mod_u32 m i (List.mem_range.mp hi)

theorem BitSet_length (m : Nat) : (BitSet m).length = popcount m := by
  rw [BitSet_eq, popcount, card_filter_range_eq_length]

/-- In an ascending filtered range, a satisfying index sits at the position given by the
number of satisfying indices below it. -/
theorem filter_range_position (p : Nat → Bool) (n idx : Nat) (hidx : idx < n)
    (hp : p idx = true) :
    ((List.range n).filter p)[((List.range idx).filter p).length]? = some idx := by
  induction n with
  | zero => omega
  | succ n ih =>
    rw [List.range_succ, List.filter_append]
    rcases Nat.eq_or_lt_of_le (Nat.le_of_lt_succ hidx) with heq | hlt
    · subst heq
      rw [List.getElem?_append_right (le_refl _)]
      simp [hp]
    · have h := ih hlt
      have hlen : ((List.range idx).filter p).length < ((List.range n).filter p).length := by
        by_contra hc
        rw [List.getElem?_eq_none (by omega)] at h
        simp at h
      rw [List.getElem?_append_left hlen]
      exact h

/-- The destination slot of an output register whose mask bit is set. -/
theorem WriteOutput_slot_of_register {float24 : Type} (st : UnitState float24)
    (config : ShaderConfig) (output : AttributeBuffer float24) (r : Nat) (hr : r < 32)
    (hbit : config.output_mask.testBit r = true) :
    (WriteOutput st config output).attr (setBitsBelow config.output_mask r)
      = st.registers.output r := by
  have hpos := filter_range_position (fun i => config.output_mask.testBit i) 32 r hr hbit
  rw [← BitSet_eq, ← card_filter_range_eq_length] at hpos
  have := WriteOutput.foldl_slot st (BitSet config.output_mask) (0, output) _ r hpos
  simpa [WriteOutput, WriteOutput.loop, setBitsBelow] using this

/-- Below a set bit of the mask `2 ^ n - 1` every bit is set. -/
theorem setBitsBelow_low_mask (n a : Nat) (ha : a < n) : setBitsBelow (2 ^ n - 1) a = a := by
  rw [setBitsBelow, Finset.filter_true_of_mem, Finset.card_range]
  intro i hi
  rw [Nat.testBit_two_pow_sub_one]
  simp only [decide_eq_true_eq]
  exact lt_trans (Finset.mem_range.mp hi) ha

/-! ## Lemmas: the load loop -/

/-- With a bound of `2 ^ 32 - 1` or more the 32-bit counter never exceeds the bound: the
loop does not exit, whatever the fuel. -/
theorem LoadInput.loop_diverges {float24 : Type} (config : ShaderConfig)
    (input : AttributeBuffer float24) (M : Nat) (hM : 2 ^ 32 - 1 ≤ M) (fuel : Nat) :
    ∀ (attr : Nat) (st : UnitState float24), attr < 2 ^ 32 →
      LoadInput.loop config input M fuel attr st = none := by
  induction fuel with
  | zero =>
    intro attr st _
    rfl
  | succ fuel ih =>
    intro attr st hattr
    rw [LoadInput.loop, if_pos (by omega)]
    exact ih _ _ (Nat.mod_lt _ (by norm_num))

/-- What holds whenever the load loop, started at counter value `attr`, exits: the output
registers are kept, input registers that no remaining slot targets are kept, and a
register targeted by slot `a` and by no later slot holds slot `a`. -/
theorem LoadInput.loop_exit_spec {float24 : Type} (config : ShaderConfig)
    (input : AttributeBuffer float24) (M : Nat) (fuel : Nat) :
    ∀ (attr : Nat) (st st' : UnitState float24), attr < 2 ^ 32 →
      LoadInput.loop config input M fuel attr st = some st' →
        st'.registers.output = st.registers.output ∧
        (∀ r, (∀ a, attr ≤ a → a ≤ M → config.GetRegisterForAttribute a ≠ r) →
          st'.registers.input r = st.registers.input r) ∧
        (∀ a, attr ≤ a → a ≤ M →
          (∀ a', a < a' → a' ≤ M →
            config.GetRegisterForAttribute a' ≠ config.GetRegisterForAttribute a) →
          st'.registers.input (config.GetRegisterForAttribute a) = input.attr a) := by
  induction fuel with
  | zero =>
    intro attr st st' _ hrun
    simp [LoadInput.loop] at hrun
  | succ fuel ih =>
    intro attr st st' hattr hrun
    by_cases hle : attr ≤ M
    · rw [LoadInput.loop, if_pos hle] at hrun
      by_cases hbig : 2 ^ 32 - 1 ≤ M
      · rw [LoadInput.loop_diverges config input M hbig fuel _ _
          (Nat.mod_lt _ (by norm_num))] at hrun
        simp at hrun
      · have hwrap : (attr + 1) % 2 ^ 32 = attr + 1 := Nat.mod_eq_of_lt (by omega)
        rw [hwrap] at hrun
        obtain ⟨hout, hframe, hlast⟩ := ih (attr + 1) _ st' (by omega) hrun
        refine ⟨hout, ?_, ?_⟩
        · intro r hr
          rw [hframe r (fun a ha1 ha2 => hr a (by omega) ha2)]
          exact Function.update_noteq (hr attr (le_refl _) hle).symm _ _
        · intro a ha1 ha2 hlater
          rcases Nat.eq_or_lt_of_le ha1 with heq | hlt
          · subst heq
            rw [hframe _ (fun a' h1' h2' => hlater a' (by omega) h2')]
            exact Function.update_same _ _ _
          · exact hlast a (by omega) ha2 hlater
    · rw [LoadInput.loop, if_neg hle] at hrun
      simp only [Option.some.injEq] at hrun
      subst hrun
      refine ⟨rfl, fun _ _ => rfl, ?_⟩
      intro a ha1 ha2
      omega

/-- The load loop exits when the bound is below `2 ^ 32 - 1` and the fuel covers the
remaining loop tests. -/
theorem LoadInput.loop_total {float24 : Type} (config : ShaderConfig)
    (input : AttributeBuffer float24) (M : Nat) (hM : M < 2 ^ 32 - 1) (fuel : Nat) :
    ∀ (attr : Nat) (st : UnitState float24), attr ≤ M + 1 → M + 2 ≤ fuel + attr →
      ∃ st', LoadInput.loop config input M fuel attr st = some st' := by
  induction fuel with
  | zero =>
    intro attr st h1 h2
    omega
  | succ fuel ih =>
    intro attr st h1 h2
    by_cases hle : attr ≤ M
    · have hwrap : (attr + 1) % 2 ^ 32 = attr + 1 := Nat.mod_eq_of_lt (by omega)
      rw [LoadInput.loop, if_pos hle, hwrap]
      exact ih (attr + 1) _ (by omega) (by omega)
    · exact ⟨st, by rw [LoadInput.loop, if_neg hle]⟩

/-! ## Lemmas: the engine selector -/

theorem GetEngine_owned (x86_64 flag : Bool) (s : Selector) (h : s.Owned) :
    (GetEngine x86_64 flag s).2.Owned ∧
    s.constructed ≤ (GetEngine x86_64 flag s).2.constructed ∧
    ∀ id, (GetEngine x86_64 flag s).1 = EnginePtr.jit id →
      id < (GetEngine x86_64 flag s).2.constructed := by
  unfold GetEngine
  by_cases hc : (x86_64 && flag) = true
  · rw [if_pos hc]
    cases hj : s.jit_engine with
    | none =>
      simp only [if_true, Selector.get]
      refine ⟨?_, Nat.le_succ _, ?_⟩
      · intro id hid
        simp only [Option.some.injEq] at hid
        exact hid ▸ Nat.lt_succ_self _
      · intro id hid
        simp only [EnginePtr.jit.injEq] at hid
        exact hid ▸ Nat.lt_succ_self _
    | some j =>
      simp only [reduceCtorEq, if_false, Selector.get, hj]
      refine ⟨h, le_refl _, ?_⟩
      intro id hid
      simp only [EnginePtr.jit.injEq] at hid
      exact hid ▸ h j hj
  · rw [if_neg hc]
    exact ⟨h, le_refl _, by simp⟩

theorem Shutdown_owned (x86_64 : Bool) (s : Selector) :
    (Shutdown x86_64 s).constructed = s.constructed ∧ (s.Owned → (Shutdown x86_64 s).Owned) := by
  unfold Shutdown
  cases x86_64
  · exact ⟨rfl, id⟩
  · refine ⟨rfl, ?_⟩
    intro _ id hid
    simp at hid

/-- Along any sequence of calls the construction counter only grows, and every JIT pointer
handed out refers to an instance constructed by then. -/
theorem run_owned (x86_64 : Bool) (calls : List Call) :
    ∀ s : Selector, s.Owned →
      (run x86_64 s calls).1.Owned ∧
      s.constructed ≤ (run x86_64 s calls).1.constructed ∧
      ∀ id, EnginePtr.jit id ∈ (run x86_64 s calls).2 →
        id < (run x86_64 s calls).1.constructed := by
  induction calls with
  | nil =>
    intro s h
    exact ⟨h, le_refl _, by simp [run]⟩
  | cons c calls ih =>
    intro s h
    cases c with
    | GetEngine flag =>
      obtain ⟨h1, h2, h3⟩ := GetEngine_owned x86_64 flag s h
      obtain ⟨k1, k2, k3⟩ := ih _ h1
      simp only [run]
      refine ⟨k1, le_trans h2 k2, ?_⟩
      intro id hid
      rcases List.mem_cons.mp hid with heq | hmem
      · exact lt_of_lt_of_le (h3 id heq.symm) k2
      · exact k3 id hmem
    | Shutdown =>
      obtain ⟨h1, h2⟩ := Shutdown_owned x86_64 s
      obtain ⟨k1, k2, k3⟩ := ih _ (h2 h)
      simp only [run]
      exact ⟨k1, by omega, k3⟩

/-- Without the JIT compiled in, no call ever returns a JIT pointer. -/
theorem run_no_jit (calls : List Call) :
    ∀ (s : Selector) (id : Nat), EnginePtr.jit id ∉ (run false s calls).2 := by
  induction calls with
  | nil =>
    intro s id
    simp [run]
  | cons c calls ih =>
    intro s id
    cases c with
    | GetEngine flag =>
      simp only [run, List.mem_cons, not_or]
      exact ⟨by simp [GetEngine], ih _ id⟩
    | Shutdown =>
      simp only [run]
      exact ih _ id

/-! ## Lemmas: the vertex assembler -/

theorem FromAttributeBuffer.component_cell {float24 : Type} (L : VertexLayout)
    (ops : Float24Ops float24) (regs : Regs) (input : AttributeBuffer float24)
    (i : Nat) (ret : OutputVertex float24) (comp s : Nat) :
    (FromAttributeBuffer.component L ops regs input i ret comp).cell s
      = if s = (regs.vs_output_attributes i).semantics comp then
          FromAttributeBuffer.stored L ops regs input i comp
        else ret.cell s := by
  unfold FromAttributeBuffer.component FromAttributeBuffer.stored
  by_cases hv : (regs.vs_output_attributes i).semantics comp ≠ L.INVALID
  · simp only [if_pos hv, Function.update_apply]
  · simp only [if_neg hv, Function.update_apply]

theorem FromAttributeBuffer.slot_cell {float24 : Type} (L : VertexLayout)
    (ops : Float24Ops float24) (regs : Regs) (input : AttributeBuffer float24)
    (ret : OutputVertex float24) (i s : Nat) :
    (FromAttributeBuffer.slot L ops regs input ret i).cell s
      = if s = (regs.vs_output_attributes i).semantics 3 then
          FromAttributeBuffer.stored L ops regs input i 3
        else if s = (regs.vs_output_attributes i).semantics 2 then
          FromAttributeBuffer.stored L ops regs input i 2
        else if s = (regs.vs_output_attributes i).semantics 1 then
          FromAttributeBuffer.stored L ops regs input i 1
        else if s = (regs.vs_output_attributes i).semantics 0 then
          FromAttributeBuffer.stored L ops regs input i 0
        else ret.cell s := by
  have h4 : List.range 4 = [0, 1, 2, 3] := by decide
  simp only [FromAttributeBuffer.slot, h4, List.foldl_cons, List.foldl_nil,
    FromAttributeBuffer.component_cell]

theorem FromAttributeBuffer.slot_frame {float24 : Type} (L : VertexLayout)
    (ops : Float24Ops float24) (regs : Regs) (input : AttributeBuffer float24)
    (ret : OutputVertex float24) (i s : Nat)
    (h : ∀ c, c < 4 → (regs.vs_output_attributes i).semantics c ≠ s) :
    (FromAttributeBuffer.slot L ops regs input ret i).cell s = ret.cell s := by
  rw [FromAttributeBuffer.slot_cell, if_neg (h 3 (by omega)).symm,
    if_neg (h 2 (by omega)).symm, if_neg (h 1 (by omega)).symm, if_neg (h 0 (by omega)).symm]

theorem FromAttributeBuffer.slot_last {float24 : Type} (L : VertexLayout)
    (ops : Float24Ops float24) (regs : Regs) (input : AttributeBuffer float24)
    (ret : OutputVertex float24) (i s c : Nat) (hc : c < 4)
    (hsem : (regs.vs_output_attributes i).semantics c = s)
    (hlater : ∀ c', c < c' → c' < 4 → (regs.vs_output_attributes i).semantics c' ≠ s) :
    (FromAttributeBuffer.slot L ops regs input ret i).cell s
      = FromAttributeBuffer.stored L ops regs input i c := by
  rw [FromAttributeBuffer.slot_cell]
  interval_cases c
  · rw [if_neg (hlater 3 (by omega) (by omega)).symm, if_neg (hlater 2 (by omega) (by omega)).symm,
      if_neg (hlater 1 (by omega) (by omega)).symm, if_pos hsem.symm]
  · rw [if_neg (hlater 3 (by omega) (by omega)).symm, if_neg (hlater 2 (by omega) (by omega)).symm,
      if_pos hsem.symm]
  · rw [if_neg (hlater 3 (by omega) (by omega)).symm, if_pos hsem.symm]
  · rw [if_pos hsem.symm]

/-- A cell that no component of the first `n` slots targets is left alone by the mapping
loop over those slots. -/
theorem FromAttributeBuffer.mapping_frame {float24 : Type} (L : VertexLayout)
    (ops : Float24Ops float24) (regs : Regs) (input : AttributeBuffer float24)
    (ret : OutputVertex float24) (s n : Nat)
    (h : ∀ i c, i < n → c < 4 → (regs.vs_output_attributes i).semantics c ≠ s) :
    ((List.range n).foldl (FromAttributeBuffer.slot L ops regs input) ret).cell s
      = ret.cell s := by
  induction n with
  | zero => rfl
  | succ n ih =>
    rw [List.range_succ, List.foldl_append, List.foldl_cons, List.foldl_nil,
      FromAttributeBuffer.slot_frame _ _ _ _ _ _ _ (fun c hc => h n c (by omega) hc)]
    exact ih (fun i c hi hc => h i c (by omega) hc)

/-- After the mapping loop over the first `n` slots, a targeted cell holds what the last
pair (slot, component) targeting it stored. -/
theorem FromAttributeBuffer.mapping_last {float24 : Type} (L : VertexLayout)
    (ops : Float24Ops float24) (regs : Regs) (input : AttributeBuffer float24)
    (ret : OutputVertex float24) (s i c n : Nat) (hi : i < n) (hc : c < 4)
    (hsem : (regs.vs_output_attributes i).semantics c = s)
    (hlast : ∀ i' c', i' < n → c' < 4 → (regs.vs_output_attributes i').semantics c' = s →
      i' < i ∨ (i' = i ∧ c' ≤ c)) :
    ((List.range n).foldl (FromAttributeBuffer.slot L ops regs input) ret).cell s
      = FromAttributeBuffer.stored L ops regs input i c := by
  induction n with
  | zero => omega
  | succ n ih =>
    rw [List.range_succ, List.foldl_append, List.foldl_cons, List.foldl_nil]
    rcases Nat.eq_or_lt_of_le (Nat.le_of_lt_succ hi) with heq | hlt
    · subst heq
      apply FromAttributeBuffer.slot_last _ _ _ _ _ _ _ _ hc hsem
      intro c' h1 h2 h3
      have := hlast i c' (by omega) h2 h3
      omega
    · rw [FromAttributeBuffer.slot_frame]
      · exact ih hlt (fun i' c' h1 h2 h3 => hlast i' c' (by omega) h2 h3)
      · intro c' h2 h3
        have := hlast n c' (by omega) h2 h3
        omega

theorem FromAttributeBuffer.clamp_cell {float24 : Type} (L : VertexLayout)
    (ops : Float24Ops float24) (ret : OutputVertex float24) (i s : Nat) :
    (FromAttributeBuffer.clamp L ops ret i).cell s
      = if s = L.color + i then
          ops.FromFloat32 (fmin (fabs (ops.ToFloat32 (ret.cell (L.color + i)))) F32.one)
        else ret.cell s := by
  simp only [FromAttributeBuffer.clamp, Function.update_apply]

/-- The colour loop replaces each of the four colour cells by the clamp of the value it
held when the loop started. -/
theorem FromAttributeBuffer.clamp_color {float24 : Type} (L : VertexLayout)
    (ops : Float24Ops float24) (ret : OutputVertex float24) (j : Nat) (hj : j < 4) :
    ((List.range 4).foldl (FromAttributeBuffer.clamp L ops) ret).cell (L.color + j)
      = ops.FromFloat32 (fmin (fabs (ops.ToFloat32 (ret.cell (L.color + j)))) F32.one) := by
  have h4 : List.range 4 = [0, 1, 2, 3] := by decide
  simp only [h4, List.foldl_cons, List.foldl_nil, FromAttributeBuffer.clamp_cell]
  interval_cases j <;> simp

/-- The colour loop leaves every cell outside `color[0..3]` alone. -/
theorem FromAttributeBuffer.clamp_other {float24 : Type} (L : VertexLayout)
    (ops : Float24Ops float24) (ret : OutputVertex float24) (s : Nat)
    (hs : s < L.color ∨ L.color + 4 ≤ s) :
    ((List.range 4).foldl (FromAttributeBuffer.clamp L ops) ret).cell s = ret.cell s := by
  have h4 : List.range 4 = [0, 1, 2, 3] := by decide
  simp only [h4, List.foldl_cons, List.foldl_nil, FromAttributeBuffer.clamp_cell]
  rw [if_neg (by omega), if_neg (by omega), if_neg (by omega), if_neg (by omega)]

/-! ## Theorems -/

/-- C1: `WriteOutput` packs the selected output registers: the running slot counter ends at
`popcount (output_mask)`, and for every `k` below that count slot `k` of the destination
holds output register `idx`, where `idx` is the `k`-th set bit of the mask in ascending
order (a set bit with exactly `k` set bits below it). -/
theorem WriteOutput_packing {float24 : Type} (st : UnitState float24) (config : ShaderConfig)
    (output : AttributeBuffer float24) (k : Nat) (hk : k < popcount config.output_mask) :
    (WriteOutput.loop st config output).1 = popcount config.output_mask ∧
    ∃ idx, idx < 32 ∧ config.output_mask.testBit idx = true ∧
      setBitsBelow config.output_mask idx = k ∧
      (WriteOutput st config output).attr k = st.registers.output idx := by
  constructor
  · rw [WriteOutput.loop, WriteOutput.foldl_fst, BitSet_length]
    simp
  · rw [← BitSet_length, BitSet_eq] at hk
    obtain ⟨idx, h1, h2, h3, h4⟩ := filter_range_getElem _ 32 k hk
    refine ⟨idx, h2, h3, ?_, ?_⟩
    · rw [setBitsBelow, card_filter_range_eq_length]
      exact h4
    · rw [← BitSet_eq] at h1
      have := WriteOutput.foldl_slot st (BitSet config.output_mask) (0, output) k idx h1
      simpa [WriteOutput, WriteOutput.loop] using this

/-- Instance of `WriteOutput_packing`: with mask `0b1010` exactly two slots are written,
holding output registers 1 and 3 in that order. -/
theorem WriteOutput_packing_witness :
    (WriteOutput.loop exampleState exampleConfig exampleBuffer).1 = 2 ∧
    (WriteOutput exampleState exampleConfig exampleBuffer).attr 0
      = exampleState.registers.output 1 ∧
    (WriteOutput exampleState exampleConfig exampleBuffer).attr 1
      = exampleState.registers.output 3 := by
  obtain ⟨hc, i0, hi0, hb0, hr0, hv0⟩ :=
    WriteOutput_packing exampleState exampleConfig exampleBuffer 0 (by decide)
  obtain ⟨-, i1, hi1, hb1, hr1, hv1⟩ :=
    WriteOutput_packing exampleState exampleConfig exampleBuffer 1 (by decide)
  have e0 : i0 = 1 := by
    clear hv0
    interval_cases i0 <;> revert hb0 hr0 <;> decide
  have e1 : i1 = 3 := by
    clear hv1
    interval_cases i1 <;> revert hb1 hr1 <;> decide
  subst e0 e1
  exact ⟨hc.trans (by decide), hv0, hv1⟩

/-- C2: for every configuration and attribute buffer, whenever `LoadInput` returns, every
input register that is the image of a slot `a ≤ max_input_attribute_index` under
`GetRegisterForAttribute` holds `input.attr[a]` verbatim, for the largest such slot `a`
mapping to that register (last writer wins); and `LoadInput` does return, within `M + 2`
loop tests, whenever `M = max_input_attribute_index` is below `2 ^ 32 - 1`. -/
theorem LoadInput_last_writer {float24 : Type} (st : UnitState float24)
    (config : ShaderConfig) (input : AttributeBuffer float24) :
    (∀ fuel st', LoadInput fuel st config input = some st' →
      ∀ a, a ≤ config.max_input_attribute_index →
        (∀ a', a' ≤ config.max_input_attribute_index →
          config.GetRegisterForAttribute a' = config.GetRegisterForAttribute a → a' ≤ a) →
        st'.registers.input (config.GetRegisterForAttribute a) = input.attr a) ∧
    (config.max_input_attribute_index < 2 ^ 32 - 1 →
      ∀ fuel, config.max_input_attribute_index + 2 ≤ fuel →
        ∃ st', LoadInput fuel st config input = some st') := by
  constructor
  · intro fuel st' hrun a ha hmax
    obtain ⟨-, -, hlast⟩ :=
      LoadInput.loop_exit_spec config input config.max_input_attribute_index fuel 0 st st'
        (by norm_num) hrun
    apply hlast a (Nat.zero_le _) ha
    intro a' hlt hle heq
    have := hmax a' hle heq
    omega
  · intro hM fuel hfuel
    exact LoadInput.loop_total config input config.max_input_attribute_index hM fuel 0 st
      (by omega) (by omega)

/-- Instance of `LoadInput_last_writer`: with `max_input_attribute_index = 2` and the
mapping 0→5, 1→0, 2→5, the call returns with register 5 holding slot 2 and register 0
holding slot 1. -/
theorem LoadInput_last_writer_witness :
    ∃ st', LoadInput 4 exampleState exampleConfig exampleBuffer = some st' ∧
      st'.registers.input 5 = exampleBuffer.attr 2 ∧
      st'.registers.input 0 = exampleBuffer.attr 1 := by
  obtain ⟨hpart, htot⟩ := LoadInput_last_writer exampleState exampleConfig exampleBuffer
  obtain ⟨st', hrun⟩ := htot (by decide) 4 (by decide)
  have h := hpart 4 st' hrun
  refine ⟨st', hrun, ?_, ?_⟩
  · have h2 := h 2 (by decide) (by
      intro a' ha' _
      exact ha')
    simpa [exampleConfig] using h2
  · have h1 := h 1 (by decide) (by
      intro a' ha' he
      have ha2 : a' ≤ 2 := ha'
      interval_cases a' <;> first | omega | (revert he; decide))
    simpa [exampleConfig] using h1

/-- C3: for every configuration and attribute buffer, whenever `LoadInput` returns, every
input register that is not `GetRegisterForAttribute a` for any slot
`a ≤ max_input_attribute_index` keeps the value it held before the call (it is not zeroed)
and the output registers are unchanged; and `LoadInput` does return, within `M + 2` loop
tests, whenever `M = max_input_attribute_index` is below `2 ^ 32 - 1`.  The attribute
buffer is a read-only argument of the call. -/
theorem LoadInput_frame {float24 : Type} (st : UnitState float24)
    (config : ShaderConfig) (input : AttributeBuffer float24) :
    (∀ fuel st', LoadInput fuel st config input = some st' →
      (∀ r, (∀ a, a ≤ config.max_input_attribute_index →
          config.GetRegisterForAttribute a ≠ r) →
        st'.registers.input r = st.registers.input r) ∧
      st'.registers.output = st.registers.output) ∧
    (config.max_input_attribute_index < 2 ^ 32 - 1 →
      ∀ fuel, config.max_input_attribute_index + 2 ≤ fuel →
        ∃ st', LoadInput fuel st config input = some st') := by
  constructor
  · intro fuel st' hrun
    obtain ⟨hout, hframe, -⟩ :=
      LoadInput.loop_exit_spec config input config.max_input_attribute_index fuel 0 st st'
        (by norm_num) hrun
    exact ⟨fun r hr => hframe r (fun a _ ha => hr a ha), hout⟩
  · intro hM fuel hfuel
    exact LoadInput.loop_total config input config.max_input_attribute_index hM fuel 0 st
      (by omega) (by omega)

/-- Instance of `LoadInput_frame`: with the mapping 0→5, 1→0, 2→5 the call returns,
register 3 is not targeted and keeps its previous (non-zero) contents, and the output
registers are kept. -/
theorem LoadInput_frame_witness :
    ∃ st', LoadInput 4 exampleState exampleConfig exampleBuffer = some st' ∧
      st'.registers.input 3 = ⟨103, 203, 303, 403⟩ ∧
      st'.registers.output = exampleState.registers.output := by
  obtain ⟨hpart, htot⟩ := LoadInput_frame exampleState exampleConfig exampleBuffer
  obtain ⟨st', hrun⟩ := htot (by decide) 4 (by decide)
  obtain ⟨hframe, hout⟩ := hpart 4 st' hrun
  refine ⟨st', hrun, ?_, hout⟩
  rw [hframe 3 (by
    intro a _
    simp only [exampleConfig]
    split <;> omega)]
  rfl

/-- C7: from any selector state, two consecutive `GetEngine` calls made while
`g_shader_jit_enabled` is true return the same engine pointer; and a `GetEngine` call made
while the flag is false returns the interpreter instance whatever the state. -/
theorem GetEngine_identity_stable (x86_64 : Bool) (s : Selector) :
    (GetEngine x86_64 true (GetEngine x86_64 true s).2).1 = (GetEngine x86_64 true s).1 ∧
    (GetEngine x86_64 false s).1 = EnginePtr.interpreter_engine := by
  constructor
  · cases x86_64
    · rfl
    · cases hj : s.jit_engine with
      | none => simp [GetEngine, hj, Selector.get]
      | some j => simp [GetEngine, hj, Selector.get]
  · cases x86_64 <;> rfl

/-- C8: if some `GetEngine` call of a call sequence run from program start returned a JIT
instance, then after a following `Shutdown()` the next `GetEngine` call with the flag true
constructs a new `JitX64Engine` (the construction count goes up by one, and the new instance
is the one cached and returned), and the pointer returned differs from every pointer
returned before the `Shutdown`. -/
theorem Shutdown_forces_reconstruction (x86_64 : Bool) (calls : List Call) (id : Nat)
    (hret : EnginePtr.jit id ∈ (run x86_64 Selector.start calls).2) :
    (GetEngine x86_64 true (Shutdown x86_64 (run x86_64 Selector.start calls).1)).2.constructed
      = (run x86_64 Selector.start calls).1.constructed + 1 ∧
    (GetEngine x86_64 true (Shutdown x86_64 (run x86_64 Selector.start calls).1)).1
      = EnginePtr.jit (run x86_64 Selector.start calls).1.constructed ∧
    (GetEngine x86_64 true (Shutdown x86_64 (run x86_64 Selector.start calls).1)).2.jit_engine
      = some (run x86_64 Selector.start calls).1.constructed ∧
    ∀ p ∈ (run x86_64 Selector.start calls).2,
      p ≠ (GetEngine x86_64 true (Shutdown x86_64 (run x86_64 Selector.start calls).1)).1 := by
  cases x86_64 with
  | false => exact absurd hret (run_no_jit calls _ id)
  | true =>
    have hstart : Selector.start.Owned := by
      intro j hj
      simp [Selector.start] at hj
    obtain ⟨-, -, hfresh⟩ := run_owned true calls Selector.start hstart
    have hget : GetEngine true true (Shutdown true (run true Selector.start calls).1)
        = (EnginePtr.jit (run true Selector.start calls).1.constructed,
            { jit_engine := some (run true Selector.start calls).1.constructed,
              constructed := (run true Selector.start calls).1.constructed + 1 }) := by
      simp [GetEngine, Shutdown, Selector.get]
    rw [hget]
    refine ⟨rfl, rfl, rfl, ?_⟩
    intro p hp heq
    subst heq
    exact lt_irrefl _ (hfresh _ hp)

/-- Instance of `Shutdown_forces_reconstruction`: after one native `GetEngine`
(instance 0) and a `Shutdown`, the next native `GetEngine` returns instance 1. -/
theorem Shutdown_forces_reconstruction_witness :
    (run true Selector.start [Call.GetEngine true]).2 = [EnginePtr.jit 0] ∧
    (GetEngine true true
        (Shutdown true (run true Selector.start [Call.GetEngine true]).1)).1
      = EnginePtr.jit 1 ∧
    EnginePtr.jit 0 ≠ (GetEngine true true
        (Shutdown true (run true Selector.start [Call.GetEngine true]).1)).1 := by
  have h := Shutdown_forces_reconstruction true [Call.GetEngine true] 0 (by decide)
  exact ⟨by decide, h.2.1.trans (by decide), h.2.2.2 _ (by decide)⟩

/-- C10: for every selector state and every value of the flag, `GetEngine` returns a
non-null pointer, which is either the interpreter instance or the JIT instance that the
selector owns once the call has returned. -/
theorem GetEngine_never_null (x86_64 flag : Bool) (s : Selector) :
    (GetEngine x86_64 flag s).1 ≠ EnginePtr.null ∧
    ((GetEngine x86_64 flag s).1 = EnginePtr.interpreter_engine ∨
      ∃ id, (GetEngine x86_64 flag s).1 = EnginePtr.jit id ∧
        (GetEngine x86_64 flag s).2.jit_engine = some id) := by
  unfold GetEngine
  by_cases hc : (x86_64 && flag) = true
  · rw [if_pos hc]
    cases hj : s.jit_engine with
    | none => simp [Selector.get]
    | some j => simp [Selector.get, hj]
  · rw [if_neg hc]
    simp

/-- The mapping loop stores the attribute component, not zero, for a valid semantic id. -/
theorem FromAttributeBuffer.stored_valid {float24 : Type} (L : VertexLayout)
    (ops : Float24Ops float24) (regs : Regs) (input : AttributeBuffer float24) (i c : Nat)
    (h : (regs.vs_output_attributes i).semantics c ≠ L.INVALID) :
    FromAttributeBuffer.stored L ops regs input i c = (input.attr i).get c := by
  rw [FromAttributeBuffer.stored, if_pos h]

theorem fmin_fabs_finite (q : ℚ) :
    fmin (fabs (F32.finite q)) F32.one = F32.finite (min (abs q) 1) := rfl

/-- C4, evaluated at the failing input: with one output slot mapped to
(pos.x, pos.y, pos.z, INVALID), the assembler zeroes only cell `INVALID` (31); the cell of
pos.w (3), to which nothing maps, still holds the content the storage of `ret` had before
the call (7.0 here), which is not zero. -/
theorem FromAttributeBuffer_unmapped_stale :
    (FromAttributeBuffer exampleLayout exampleOps unmappedRegs exampleAttrs exampleGarbage).cell 3
      = exampleGarbage.cell 3 ∧
    (FromAttributeBuffer exampleLayout exampleOps unmappedRegs exampleAttrs exampleGarbage).cell 3
      ≠ exampleOps.zero ∧
    (FromAttributeBuffer exampleLayout exampleOps unmappedRegs exampleAttrs exampleGarbage).cell 31
      = exampleOps.zero := by
  have h3 : (FromAttributeBuffer exampleLayout exampleOps unmappedRegs exampleAttrs
      exampleGarbage).cell 3 = exampleGarbage.cell 3 := by
    rw [FromAttributeBuffer, FromAttributeBuffer.clamp_other _ _ _ _ (Or.inl (by decide))]
    apply FromAttributeBuffer.mapping_frame
    intro i c _ hc
    interval_cases c <;> simp [unmappedRegs, VSOutputAttributes.semantics]
  refine ⟨h3, ?_, ?_⟩
  · rw [h3]
    simp [exampleGarbage, exampleOps]
  · rw [FromAttributeBuffer, FromAttributeBuffer.clamp_other _ _ _ _ (Or.inr (by decide))]
    have h31 := FromAttributeBuffer.mapping_last exampleLayout exampleOps unmappedRegs
      exampleAttrs exampleGarbage 31 0 3 1 (by decide) (by decide) (by decide) (by
        intro i' c' hi' hc' _
        right
        exact ⟨by omega, by omega⟩)
    refine Eq.trans h31 ?_
    simp [FromAttributeBuffer.stored, unmappedRegs, VSOutputAttributes.semantics,
      exampleLayout]

/-- C5: for each colour component `j`, the assembled `ret.color[j]` is
`FromFloat32 (fmin (fabs (ToFloat32 v)) 1.0f)` for the value `v` the mapping loop leaves in
that cell, the clamp being applied once; for every non-NaN `v` this is `min(|v|, 1.0)` taken
on the host float and re-encoded; and when (slot, component) pairs map to the colour
component, `v` is the attribute component of the last of them in iteration order. -/
theorem FromAttributeBuffer_color_clamp {float24 : Type} (L : VertexLayout)
    (ops : Float24Ops float24) (regs : Regs) (input : AttributeBuffer float24)
    (uninit : OutputVertex float24) (j : Nat) (hj : j < 4) :
    (FromAttributeBuffer L ops regs input uninit).cell (L.color + j)
      = ops.FromFloat32 (fmin (fabs (ops.ToFloat32
          ((FromAttributeBuffer.mapping L ops regs input uninit).cell (L.color + j)))) F32.one) ∧
    (∀ q, ops.ToFloat32 ((FromAttributeBuffer.mapping L ops regs input uninit).cell
          (L.color + j)) = F32.finite q →
      (FromAttributeBuffer L ops regs input uninit).cell (L.color + j)
        = ops.FromFloat32 (F32.finite (min (abs q) 1))) ∧
    (ops.ToFloat32 ((FromAttributeBuffer.mapping L ops regs input uninit).cell
          (L.color + j)) = F32.posInf ∨
      ops.ToFloat32 ((FromAttributeBuffer.mapping L ops regs input uninit).cell
          (L.color + j)) = F32.negInf →
      (FromAttributeBuffer L ops regs input uninit).cell (L.color + j)
        = ops.FromFloat32 (F32.finite 1)) ∧
    (∀ i c, i < regs.vs_output_total → c < 4 →
      (regs.vs_output_attributes i).semantics c = L.color + j → L.color + j ≠ L.INVALID →
      (∀ i' c', i' < regs.vs_output_total → c' < 4 →
        (regs.vs_output_attributes i').semantics c' = L.color + j →
        i' < i ∨ (i' = i ∧ c' ≤ c)) →
      (FromAttributeBuffer.mapping L ops regs input uninit).cell (L.color + j)
        = (input.attr i).get c) := by
  have hclamp := FromAttributeBuffer.clamp_color L ops
    (FromAttributeBuffer.mapping L ops regs input uninit) j hj
  refine ⟨hclamp, ?_, ?_, ?_⟩
  · intro q hq
    rw [FromAttributeBuffer, hclamp, hq, fmin_fabs_finite]
  · intro hinf
    rw [FromAttributeBuffer, hclamp]
    rcases hinf with h | h <;> rw [h] <;> rfl
  · intro i c hi hc hsem hvalid hlast
    rw [FromAttributeBuffer.mapping,
      FromAttributeBuffer.mapping_last L ops regs input uninit _ i c _ hi hc hsem hlast]
    exact FromAttributeBuffer.stored_valid L ops regs input i c (hsem ▸ hvalid)

/-- Instance of `FromAttributeBuffer_color_clamp`: slot 0 component z and slot 1
component y both map to color.r; the later one supplies `-3.0`, and the assembled color.r
is `min(|-3.0|, 1.0) = 1.0`. -/
theorem FromAttributeBuffer_color_clamp_witness :
    (FromAttributeBuffer exampleLayout exampleOps exampleRegs exampleAttrs exampleGarbage).cell 8
      = F32.finite 1 := by
  obtain ⟨-, hfin, -, hlast⟩ :=
    FromAttributeBuffer_color_clamp exampleLayout exampleOps exampleRegs exampleAttrs
      exampleGarbage 0 (by decide)
  have hv := hlast 1 1 (by decide) (by decide) (by decide) (by decide) (by
    intro i' c' hi' hc' hs
    have hi2 : i' < 2 := hi'
    interval_cases i' <;> interval_cases c' <;> first | omega | (revert hs; decide))
  have h := hfin (-3) (by rw [hv]; rfl)
  have e : min (abs (-3 : ℚ)) 1 = 1 := by norm_num
  rw [e] at h
  exact h

/-- C6: a cell at a valid semantic offset `s` outside `color` that is the target of a pair
(slot `i < vs_output_total`, component `c`) holds `input.attr[i][c]` after assembly, for
the last such pair in ascending (slot, then component) order. -/
theorem FromAttributeBuffer_copy {float24 : Type} (L : VertexLayout)
    (ops : Float24Ops float24) (regs : Regs) (input : AttributeBuffer float24)
    (uninit : OutputVertex float24) (s i c : Nat)
    (hi : i < regs.vs_output_total) (hc : c < 4)
    (hsem : (regs.vs_output_attributes i).semantics c = s)
    (hvalid : s ≠ L.INVALID) (hnoncolor : s < L.color ∨ L.color + 4 ≤ s)
    (hlast : ∀ i' c', i' < regs.vs_output_total → c' < 4 →
      (regs.vs_output_attributes i').semantics c' = s → i' < i ∨ (i' = i ∧ c' ≤ c)) :
    (FromAttributeBuffer L ops regs input uninit).cell s = (input.attr i).get c := by
  rw [FromAttributeBuffer, FromAttributeBuffer.clamp_other L ops _ s hnoncolor,
    FromAttributeBuffer.mapping,
    FromAttributeBuffer.mapping_last L ops regs input uninit s i c _ hi hc hsem hlast]
  exact FromAttributeBuffer.stored_valid L ops regs input i c (hsem ▸ hvalid)

/-- Instance of `FromAttributeBuffer_copy`: slot 0 and slot 1 both map their x
component to pos.x; the assembled pos.x is slot 1's x component, `-7.0`. -/
theorem FromAttributeBuffer_copy_witness :
    (FromAttributeBuffer exampleLayout exampleOps exampleRegs exampleAttrs exampleGarbage).cell 0
      = F32.finite (-7) :=
  FromAttributeBuffer_copy exampleLayout exampleOps exampleRegs exampleAttrs exampleGarbage
    0 1 0 (by decide) (by decide) (by decide) (by decide) (Or.inl (by decide)) (by
      intro i' c' hi' hc' hs
      have hi2 : i' < 2 := hi'
      interval_cases i' <;> interval_cases c' <;> first | omega | (revert hs; decide))

/-- C9: load, identity engine, store.  Whenever `LoadInput` returns, running the identity
engine and then `WriteOutput` puts, for every register `r` whose bit is set in `output_mask`
and which is the image of a slot `a ≤ max_input_attribute_index`, the original
`input.attr[a]` of the last such slot at destination position "number of set mask bits
below `r`"; in particular with the identity mapping and
`output_mask = 2 ^ (max_input_attribute_index + 1) - 1` (a 32-bit value) destination slots
`0 .. max_input_attribute_index` equal the original slots; and `LoadInput` does return,
within `M + 2` loop tests, whenever `M = max_input_attribute_index` is below `2 ^ 32 - 1`. -/
theorem load_store_round_trip {float24 : Type} (st : UnitState float24)
    (config : ShaderConfig) (input dest : AttributeBuffer float24) :
    (∀ fuel st', LoadInput fuel st config input = some st' →
      ∀ r a, r < 32 → config.output_mask.testBit r = true →
        a ≤ config.max_input_attribute_index → config.GetRegisterForAttribute a = r →
        (∀ a', a' ≤ config.max_input_attribute_index →
          config.GetRegisterForAttribute a' = r → a' ≤ a) →
        (WriteOutput (identityEngine st') config dest).attr
            (setBitsBelow config.output_mask r) = input.attr a) ∧
    (∀ fuel st', LoadInput fuel st config input = some st' →
      (∀ a, a ≤ config.max_input_attribute_index → config.GetRegisterForAttribute a = a) →
      config.output_mask = 2 ^ (config.max_input_attribute_index + 1) - 1 →
      config.output_mask < 2 ^ 32 →
      ∀ a, a ≤ config.max_input_attribute_index →
        (WriteOutput (identityEngine st') config dest).attr a = input.attr a) ∧
    (config.max_input_attribute_index < 2 ^ 32 - 1 →
      ∀ fuel, config.max_input_attribute_index + 2 ≤ fuel →
        ∃ st', LoadInput fuel st config input = some st') := by
  have general : ∀ fuel st', LoadInput fuel st config input = some st' →
      ∀ r a, r < 32 → config.output_mask.testBit r = true →
        a ≤ config.max_input_attribute_index → config.GetRegisterForAttribute a = r →
        (∀ a', a' ≤ config.max_input_attribute_index →
          config.GetRegisterForAttribute a' = r → a' ≤ a) →
        (WriteOutput (identityEngine st') config dest).attr
            (setBitsBelow config.output_mask r) = input.attr a := by
    intro fuel st' hrun r a hr hbit ha hreg hmax
    obtain ⟨-, -, hlast⟩ :=
      LoadInput.loop_exit_spec config input config.max_input_attribute_index fuel 0 st st'
        (by norm_num) hrun
    rw [WriteOutput_slot_of_register _ _ _ r hr hbit]
    have hval := hlast a (Nat.zero_le _) ha (by
      intro a' hlt hle heq
      have := hmax a' hle (heq.trans hreg)
      omega)
    rw [hreg] at hval
    exact hval
  refine ⟨general, ?_, ?_⟩
  · intro fuel st' hrun hid hmask h32 a ha
    have hM : config.max_input_attribute_index + 1 ≤ 32 := by
      by_contra hc
      have hpow : 2 ^ 33 ≤ 2 ^ (config.max_input_attribute_index + 1) :=
        Nat.pow_le_pow_right (by norm_num) (by omega)
      omega
    have hbit : config.output_mask.testBit a = true := by
      rw [hmask, Nat.testBit_two_pow_sub_one]
      simp only [decide_eq_true_eq]
      omega
    have h := general fuel st' hrun a a (by omega) hbit ha (hid a ha) (by
      intro a' ha' heq
      rw [hid a' ha'] at heq
      omega)
    rw [hmask, setBitsBelow_low_mask _ _ (by omega)] at h
    exact h
  · intro hM fuel hfuel
    exact LoadInput.loop_total config input config.max_input_attribute_index hM fuel 0 st
      (by omega) (by omega)

/-- Instance of `load_store_round_trip`: with the identity mapping on slots 0..2 and
mask `0b111`, the round trip returns and reproduces slots 0, 1 and 2. -/
theorem load_store_round_trip_witness :
    ∃ st', LoadInput 4 exampleState roundTripConfig exampleBuffer = some st' ∧
      ∀ a, a ≤ 2 →
        (WriteOutput (identityEngine st') roundTripConfig exampleDest).attr a
          = exampleBuffer.attr a := by
  obtain ⟨-, hid, htot⟩ :=
    load_store_round_trip exampleState roundTripConfig exampleBuffer exampleDest
  obtain ⟨st', hrun⟩ := htot (by decide) 4 (by decide)
  exact ⟨st', hrun, hid 4 st' hrun (fun _ _ => rfl) (by decide) (by decide)⟩

/-! ## Engine selector: lifecycle -/

/-- Without the JIT compiled in, no call changes the selector state. -/
theorem run_without_jit (calls : List Call) :
    ∀ s : Selector, (run false s calls).1 = s := by
  induction calls with
  | nil =>
    intro s
    rfl
  | cons c calls ih =>
    intro s
    cases c with
    | GetEngine flag =>
      simp only [run]
      rw [ih]
      rfl
    | Shutdown =>
      simp only [run]
      rw [ih]
      rfl

/-- A `GetEngine` call made with the flag false leaves the selector state as it is. -/
theorem GetEngine_flag_off_state (x86_64 : Bool) (s : Selector) :
    (GetEngine x86_64 false s).2 = s := by
  simp [GetEngine]

/-- Any number of `GetEngine` calls made with the flag false leave the selector state as it
is. -/
theorem run_flag_off (x86_64 : Bool) (n : Nat) :
    ∀ s : Selector, (run x86_64 s (List.replicate n (Call.GetEngine false))).1 = s := by
  induction n with
  | zero =>
    intro s
    rfl
  | succ n ih =>
    intro s
    simp only [List.replicate_succ, run]
    rw [GetEngine_flag_off_state, ih]

/-- Along `GetEngine` calls only, a selector that has constructed nothing or owns instance 0
as its single construction stays so, and only the interpreter or instance 0 is returned. -/
theorem run_getEngine_single (x86_64 : Bool) (flags : List Bool) :
    ∀ s : Selector,
      ((s.jit_engine = none ∧ s.constructed = 0) ∨
        (s.jit_engine = some 0 ∧ s.constructed = 1)) →
      (((run x86_64 s (flags.map Call.GetEngine)).1.jit_engine = none ∧
          (run x86_64 s (flags.map Call.GetEngine)).1.constructed = 0) ∨
        ((run x86_64 s (flags.map Call.GetEngine)).1.jit_engine = some 0 ∧
          (run x86_64 s (flags.map Call.GetEngine)).1.constructed = 1)) ∧
      ∀ p ∈ (run x86_64 s (flags.map Call.GetEngine)).2,
        p = EnginePtr.interpreter_engine ∨ p = EnginePtr.jit 0 := by
  induction flags with
  | nil =>
    intro s h
    exact ⟨h, by simp [run]⟩
  | cons f flags ih =>
    intro s h
    have hstep : (((GetEngine x86_64 f s).2.jit_engine = none ∧
          (GetEngine x86_64 f s).2.constructed = 0) ∨
        ((GetEngine x86_64 f s).2.jit_engine = some 0 ∧
          (GetEngine x86_64 f s).2.constructed = 1)) ∧
        ((GetEngine x86_64 f s).1 = EnginePtr.interpreter_engine ∨
          (GetEngine x86_64 f s).1 = EnginePtr.jit 0) := by
      unfold GetEngine
      by_cases hc : (x86_64 && f) = true
      · rw [if_pos hc]
        rcases h with ⟨h1, h2⟩ | ⟨h1, h2⟩
        · simp [h1, h2, Selector.get]
        · simp [h1, h2, Selector.get]
      · rw [if_neg hc]
        exact ⟨h, Or.inl rfl⟩
    obtain ⟨k1, k2⟩ := ih _ hstep.1
    simp only [List.map_cons, run]
    refine ⟨k1, ?_⟩
    intro p hp
    rcases List.mem_cons.mp hp with heq | hmem
    · rw [heq]
      exact hstep.2
    · exact k2 p hmem

/-- C11: after `Shutdown()` no JIT instance is cached: `jit_engine` is null from every state
of a build with the JIT compiled in, and from every state reachable from program start in
either build; `Shutdown` constructs nothing, and the interpreter is unaffected: `GetEngine`
with the flag false returns the same interpreter instance after `Shutdown` as before it. -/
theorem Shutdown_effect (x86_64 : Bool) (s : Selector) (calls : List Call) :
    (Shutdown true s).jit_engine = none ∧
    (Shutdown x86_64 (run x86_64 Selector.start calls).1).jit_engine = none ∧
    (Shutdown x86_64 s).constructed = s.constructed ∧
    (GetEngine x86_64 false (Shutdown x86_64 s)).1 = (GetEngine x86_64 false s).1 ∧
    (GetEngine x86_64 false (Shutdown x86_64 s)).1 = EnginePtr.interpreter_engine := by
  refine ⟨rfl, ?_, ?_, ?_, ?_⟩
  · cases x86_64
    · rw [run_without_jit]
      rfl
    · rfl
  · cases x86_64 <;> rfl
  · cases x86_64 <;> rfl
  · cases x86_64 <;> rfl

/-- C13: from program start, over every finite sequence of `GetEngine` calls with arbitrary
flag values and no `Shutdown`: at most one `JitX64Engine` is ever constructed, every pointer
returned is the interpreter or that one instance, a sequence of calls all made with the
flag false constructs nothing and leaves the selector in its start state, and a call made
with the flag false leaves the cached engine, present or absent, unchanged. -/
theorem GetEngine_constructs_at_most_once (x86_64 : Bool) (flags : List Bool) :
    (run x86_64 Selector.start (flags.map Call.GetEngine)).1.constructed ≤ 1 ∧
    (∀ p ∈ (run x86_64 Selector.start (flags.map Call.GetEngine)).2,
      p = EnginePtr.interpreter_engine ∨ p = EnginePtr.jit 0) ∧
    ((∀ f ∈ flags, f = false) →
      (run x86_64 Selector.start (flags.map Call.GetEngine)).1 = Selector.start) ∧
    (∀ s : Selector, (GetEngine x86_64 false s).2 = s) := by
  obtain ⟨hinv, hret⟩ := run_getEngine_single x86_64 flags Selector.start (Or.inl ⟨rfl, rfl⟩)
  refine ⟨?_, hret, ?_, GetEngine_flag_off_state x86_64⟩
  · rcases hinv with ⟨-, h⟩ | ⟨-, h⟩ <;> omega
  · intro hoff
    have hrep : flags.map Call.GetEngine
        = List.replicate flags.length (Call.GetEngine false) := by
      apply List.eq_replicate_iff.mpr
      refine ⟨by simp, ?_⟩
      intro c hc
      obtain ⟨f, hf, rfl⟩ := List.mem_map.mp hc
      rw [hoff f hf]
    rw [hrep, run_flag_off]

/-- Instance of `GetEngine_constructs_at_most_once`: three calls made with the flag false
leave the selector in its start state. -/
theorem GetEngine_constructs_at_most_once_witness :
    (run true Selector.start ([false, false, false].map Call.GetEngine)).1 = Selector.start :=
  (GetEngine_constructs_at_most_once true [false, false, false]).2.2.1 (by decide)

/-- C14: after a `GetEngine` call made with the flag true, any number of calls made with the
flag false and no `Shutdown`, a further call with the flag true returns the same pointer as
the first one and constructs nothing; with the JIT compiled in that pointer is a JIT
instance, the one the first call cached. -/
theorem GetEngine_stale_reuse (x86_64 : Bool) (s : Selector) (n : Nat) :
    (GetEngine x86_64 true
        (run x86_64 (GetEngine x86_64 true s).2
          (List.replicate n (Call.GetEngine false))).1).1
      = (GetEngine x86_64 true s).1 ∧
    (GetEngine x86_64 true
        (run x86_64 (GetEngine x86_64 true s).2
          (List.replicate n (Call.GetEngine false))).1).2
      = (GetEngine x86_64 true s).2 ∧
    (x86_64 = true → ∃ e, (GetEngine x86_64 true s).1 = EnginePtr.jit e ∧
      (GetEngine x86_64 true s).2.jit_engine = some e) := by
  rw [run_flag_off]
  refine ⟨?_, ?_, ?_⟩
  · cases x86_64
    · rfl
    · cases hj : s.jit_engine with
      | none => simp [GetEngine, hj, Selector.get]
      | some j => simp [GetEngine, hj, Selector.get]
  · cases x86_64
    · rfl
    · cases hj : s.jit_engine with
      | none => simp [GetEngine, hj, Selector.get]
      | some j => simp [GetEngine, hj, Selector.get]
  · intro hx
    subst hx
    cases hj : s.jit_engine with
    | none => simp [GetEngine, hj, Selector.get]
    | some j => simp [GetEngine, hj, Selector.get]

/-- Instance of `GetEngine_stale_reuse`: with the JIT compiled in, a native call from program
start returns instance 0, and after two calls with the flag off the next native call returns
instance 0 again. -/
theorem GetEngine_stale_reuse_witness :
    (GetEngine true true Selector.start).1 = EnginePtr.jit 0 ∧
    (GetEngine true true
        (run true (GetEngine true true Selector.start).2
          (List.replicate 2 (Call.GetEngine false))).1).1 = EnginePtr.jit 0 :=
  ⟨by decide, (GetEngine_stale_reuse true Selector.start 2).1.trans (by decide)⟩

/-! ## `WriteOutput`: frame and index bounds -/

/-- Every recorded access is either already in the log or is the `k`-th iteration's pair
(counter + `k`, `k`-th register of the list). -/
theorem WriteOutput.accesses_mem (regs : List Nat) :
    ∀ (acc : Nat × List (Nat × Nat)) (slot reg : Nat),
      (slot, reg) ∈ (regs.foldl WriteOutput.accessBody acc).2 →
      (slot, reg) ∈ acc.2 ∨ ∃ k, regs[k]? = some reg ∧ slot = acc.1 + k := by
  induction regs with
  | nil =>
    intro acc slot reg h
    exact Or.inl h
  | cons r rs ih =>
    intro acc slot reg h
    rw [List.foldl_cons] at h
    rcases ih _ slot reg h with hlog | ⟨k, hk, hslot⟩
    · simp only [WriteOutput.accessBody, List.mem_append, List.mem_singleton,
        Prod.mk.injEq] at hlog
      rcases hlog with hold | ⟨h1, h2⟩
      · exact Or.inl hold
      · exact Or.inr ⟨0, by simp [h2], by omega⟩
    · refine Or.inr ⟨k + 1, by simpa using hk, ?_⟩
      simp only [WriteOutput.accessBody] at hslot
      omega

theorem WriteOutput.accesses_append (regs : List Nat) :
    ∀ (n : Nat) (log : List (Nat × Nat)),
      (regs.foldl WriteOutput.accessBody (n, log)).2
        = log ++ (regs.foldl WriteOutput.accessBody (n, [])).2 := by
  induction regs with
  | nil =>
    intro n log
    simp
  | cons r rs ih =>
    intro n log
    rw [List.foldl_cons, List.foldl_cons]
    simp only [WriteOutput.accessBody, List.nil_append]
    rw [ih (n + 1) (log ++ [(n, r)]), ih (n + 1) [(n, r)], List.append_assoc]

/-- The buffer produced by the loop of `WriteOutput` is the one obtained by performing the
recorded accesses in order. -/
theorem WriteOutput.replay_accesses {float24 : Type} (st : UnitState float24)
    (regs : List Nat) :
    ∀ (n : Nat) (output : AttributeBuffer float24),
      (regs.foldl (WriteOutput.body st) (n, output)).2.attr
        = (regs.foldl WriteOutput.accessBody (n, [])).2.foldl
            (fun (a : Nat → Vec4 float24) (p : Nat × Nat) =>
              Function.update a p.1 (st.registers.output p.2)) output.attr := by
  induction regs with
  | nil =>
    intro n output
    rfl
  | cons r rs ih =>
    intro n output
    rw [List.foldl_cons, List.foldl_cons]
    simp only [WriteOutput.body, WriteOutput.accessBody, List.nil_append]
    rw [ih (n + 1), WriteOutput.accesses_append rs (n + 1) [(n, r)], List.foldl_append,
      List.foldl_cons, List.foldl_nil]

/-- Set bits of a value below `2 ^ N` sit at positions below `N`. -/
theorem testBit_index_lt (m N i : Nat) (hm : m < 2 ^ N) (hbit : m.testBit i = true) :
    i < N := by
  by_contra hc
  have hpow : 2 ^ N ≤ 2 ^ i := Nat.pow_le_pow_right (by norm_num) (by omega)
  rw [Nat.testBit_lt_two_pow (lt_of_lt_of_le hm hpow)] at hbit
  simp at hbit

theorem popcount_le_width (m N : Nat) (hm : m < 2 ^ N) : popcount m ≤ N := by
  have hsub : ((Finset.range 32).filter fun i => m.testBit i = true) ⊆ Finset.range N := by
    intro i hi
    rw [Finset.mem_filter] at hi
    exact Finset.mem_range.mpr (testBit_index_lt m N i hm hi.2)
  have := Finset.card_le_card hsub
  rw [Finset.card_range] at this
  exact this

/-- C15: `WriteOutput` leaves every destination slot at index `popcount (output_mask)` or above
exactly as it was before the call, and with `output_mask = 0` the destination buffer is
entirely unchanged.  The register file is a read-only argument of the call. -/
theorem WriteOutput_frame {float24 : Type} (st : UnitState float24) (config : ShaderConfig)
    (output : AttributeBuffer float24) :
    (∀ j, popcount config.output_mask ≤ j →
      (WriteOutput st config output).attr j = output.attr j) ∧
    (config.output_mask = 0 → (WriteOutput st config output).attr = output.attr) := by
  have hframe : ∀ j, popcount config.output_mask ≤ j →
      (WriteOutput st config output).attr j = output.attr j := by
    intro j hj
    rw [← BitSet_length] at hj
    exact WriteOutput.foldl_above st (BitSet config.output_mask) (0, output) j
      (by simpa using hj)
  refine ⟨hframe, ?_⟩
  intro hzero
  funext j
  apply hframe
  rw [hzero]
  exact Nat.le_trans (by decide) (Nat.zero_le j)

/-- Instance of `WriteOutput_frame`: with mask `0b1010` two slots are written and slot 2 of
the destination keeps its previous value. -/
theorem WriteOutput_frame_witness :
    (WriteOutput exampleState exampleConfig exampleBuffer).attr 2 = exampleBuffer.attr 2 :=
  (WriteOutput_frame exampleState exampleConfig exampleBuffer).1 2 (by decide)

/-- C17: for every `N` and every mask below `2 ^ N`, each iteration of `WriteOutput` reads a
register index below `N` and writes a destination slot that is at most that register index
and below `popcount (output_mask)`, which is at most `N`; the recorded accesses are the ones
the loop performs. -/
theorem WriteOutput_index_bounds {float24 : Type} (st : UnitState float24)
    (config : ShaderConfig) (output : AttributeBuffer float24) (N : Nat)
    (hm : config.output_mask < 2 ^ N) :
    (∀ slot reg, (slot, reg) ∈ WriteOutput.accesses config →
      reg < N ∧ slot ≤ reg ∧ slot < popcount config.output_mask) ∧
    popcount config.output_mask ≤ N ∧
    (WriteOutput st config output).attr
      = (WriteOutput.accesses config).foldl
          (fun (a : Nat → Vec4 float24) (p : Nat × Nat) =>
            Function.update a p.1 (st.registers.output p.2)) output.attr := by
  refine ⟨?_, popcount_le_width _ N hm, ?_⟩
  · intro slot reg hacc
    rcases WriteOutput.accesses_mem _ _ slot reg hacc with hnil | ⟨k, hk, hslot⟩
    · simp at hnil
    · have hklen : k < (BitSet config.output_mask).length := by
        by_contra hc
        rw [List.getElem?_eq_none (by omega)] at hk
        simp at hk
      have hk' := hk
      rw [BitSet_eq] at hk' hklen
      obtain ⟨idx, h1, -, h3, h4⟩ := filter_range_getElem _ 32 k hklen
      rw [hk'] at h1
      simp only [Option.some.injEq] at h1
      subst h1
      simp only [Nat.zero_add] at hslot
      subst hslot
      refine ⟨testBit_index_lt _ N reg hm h3, ?_, ?_⟩
      · rw [← h4]
        exact le_trans (List.length_filter_le _ _) (by simp)
      · rw [← BitSet_length, BitSet_eq]
        exact hklen
  · exact WriteOutput.replay_accesses st (BitSet config.output_mask) 0 output

/-- Instance of `WriteOutput_index_bounds` at `N = 16`: with mask `0b1010` the second
iteration writes slot 1 from register 3, both within a 16-entry array. -/
theorem WriteOutput_index_bounds_witness :
    (1, 3) ∈ WriteOutput.accesses exampleConfig ∧ 3 < 16 ∧ 1 ≤ 3 ∧
      1 < popcount exampleConfig.output_mask :=
  ⟨by decide,
    (WriteOutput_index_bounds exampleState exampleConfig exampleBuffer 16 (by decide)).1 1 3
      (by decide)⟩

/-! ## `LoadInput`: iteration count -/

/-- With the bound below `2 ^ 32 - 1` and fuel for the remaining loop tests, the recorded
reads are the slots from the current counter up to the bound, in ascending order. -/
theorem LoadInput.reads_spec (M : Nat) (hM : M < 2 ^ 32 - 1) (fuel : Nat) :
    ∀ (attr : Nat) (log : List Nat), attr ≤ M + 1 → M + 2 ≤ fuel + attr →
      LoadInput.reads M fuel attr log = some (log ++ List.range' attr (M + 1 - attr)) := by
  induction fuel with
  | zero =>
    intro attr log h1 h2
    omega
  | succ fuel ih =>
    intro attr log h1 h2
    by_cases hle : attr ≤ M
    · have hwrap : (attr + 1) % 2 ^ 32 = attr + 1 := Nat.mod_eq_of_lt (by omega)
      rw [LoadInput.reads, if_pos hle, hwrap, ih (attr + 1) _ (by omega) (by omega)]
      have hlen : M + 1 - attr = (M + 1 - (attr + 1)) + 1 := by omega
      rw [hlen, List.range'_succ, List.append_assoc]
      rfl
    · have hzero : M + 1 - attr = 0 := by omega
      rw [LoadInput.reads, if_neg hle, hzero]
      simp

/-- With fewer loop tests than slots to load plus one, the load loop has not exited. -/
theorem LoadInput.loop_short {float24 : Type} (config : ShaderConfig)
    (input : AttributeBuffer float24) (M : Nat) (hM : M < 2 ^ 32 - 1) (fuel : Nat) :
    ∀ (attr : Nat) (st : UnitState float24), fuel + attr ≤ M + 1 →
      LoadInput.loop config input M fuel attr st = none := by
  induction fuel with
  | zero =>
    intro attr st _
    rfl
  | succ fuel ih =>
    intro attr st h
    have hwrap : (attr + 1) % 2 ^ 32 = attr + 1 := Nat.mod_eq_of_lt (by omega)
    rw [LoadInput.loop, if_pos (by omega), hwrap]
    exact ih _ _ (by omega)

/-- C18: for every `max_input_attribute_index = M` below `2 ^ 32 - 1` the loop of `LoadInput`
over the 32-bit counter `attr` exits: with fuel for `M + 2` loop tests the call returns, with
fewer it has not returned yet, so exactly `M + 1` copies are made; and the attribute slots
read are `0, 1, ..., M`, each once, in ascending order (for `M = 0` slot 0 is loaded). -/
theorem LoadInput_iteration_count {float24 : Type} (st : UnitState float24)
    (config : ShaderConfig) (input : AttributeBuffer float24)
    (hM : config.max_input_attribute_index < 2 ^ 32 - 1) :
    (∀ fuel, config.max_input_attribute_index + 2 ≤ fuel →
      (∃ st', LoadInput fuel st config input = some st') ∧
      LoadInput.reads config.max_input_attribute_index fuel 0 []
        = some (List.range (config.max_input_attribute_index + 1))) ∧
    (∀ fuel, fuel ≤ config.max_input_attribute_index + 1 →
      LoadInput fuel st config input = none) ∧
    (List.range (config.max_input_attribute_index + 1)).length
      = config.max_input_attribute_index + 1 := by
  refine ⟨?_, ?_, List.length_range _⟩
  · intro fuel hfuel
    refine ⟨LoadInput.loop_total config input _ hM fuel 0 st (by omega) (by omega), ?_⟩
    rw [LoadInput.reads_spec _ hM fuel 0 [] (by omega) (by omega), List.range_eq_range']
    simp
  · intro fuel hfuel
    exact LoadInput.loop_short config input _ hM fuel 0 st (by omega)

/-- Instance of `LoadInput_iteration_count`: with `max_input_attribute_index = 2` the call
returns after reading slots 0, 1, 2, and three loop tests are not enough. -/
theorem LoadInput_iteration_count_witness :
    (∃ st', LoadInput 4 exampleState exampleConfig exampleBuffer = some st') ∧
    LoadInput.reads 2 4 0 [] = some [0, 1, 2] ∧
    LoadInput 3 exampleState exampleConfig exampleBuffer = none := by
  obtain ⟨h1, h2, -⟩ :=
    LoadInput_iteration_count exampleState exampleConfig exampleBuffer (by decide)
  exact ⟨(h1 4 (by decide)).1, (h1 4 (by decide)).2.trans (by decide), h2 3 (by decide)⟩

/-! ## `FromAttributeBuffer`: the `INVALID` target and the colour range -/

/-- C16: processing a component whose semantic id equals `INVALID` sets the cell at index
`INVALID` of the record to zero, leaves every other cell with the value it had before, and
does not depend on the attribute buffer; over the whole assembly, a cell outside `color`
that no component of any slot below `vs_output_total` targets (a valid semantic offset
nothing maps to, in particular) still has the value the storage of `ret` had before. -/
theorem FromAttributeBuffer_invalid_target {float24 : Type} (L : VertexLayout)
    (ops : Float24Ops float24) (regs : Regs) (input : AttributeBuffer float24) (i comp : Nat)
    (ret : OutputVertex float24)
    (hinv : (regs.vs_output_attributes i).semantics comp = L.INVALID) :
    (FromAttributeBuffer.component L ops regs input i ret comp).cell L.INVALID = ops.zero ∧
    (∀ s, s ≠ L.INVALID →
      (FromAttributeBuffer.component L ops regs input i ret comp).cell s = ret.cell s) ∧
    (∀ input' : AttributeBuffer float24,
      FromAttributeBuffer.component L ops regs input' i ret comp
        = FromAttributeBuffer.component L ops regs input i ret comp) ∧
    (∀ (uninit : OutputVertex float24) (s : Nat),
      (∀ i' c', i' < regs.vs_output_total → c' < 4 →
        (regs.vs_output_attributes i').semantics c' ≠ s) →
      (s < L.color ∨ L.color + 4 ≤ s) →
      (FromAttributeBuffer L ops regs input uninit).cell s = uninit.cell s) := by
  refine ⟨?_, ?_, ?_, ?_⟩
  · rw [FromAttributeBuffer.component_cell, if_pos hinv.symm, FromAttributeBuffer.stored,
      if_neg (by simp [hinv])]
  · intro s hs
    rw [FromAttributeBuffer.component_cell, if_neg (by rw [hinv]; exact hs)]
  · intro input'
    simp [FromAttributeBuffer.component, hinv]
  · intro uninit s hnone hcol
    rw [FromAttributeBuffer, FromAttributeBuffer.clamp_other L ops _ s hcol]
    exact FromAttributeBuffer.mapping_frame L ops regs input uninit s _ hnone

/-- Instance of `FromAttributeBuffer_invalid_target`: component w of the slot mapped to
(pos.x, pos.y, pos.z, INVALID) zeroes cell 31 and leaves pos.w (cell 3) at its previous
value 7.0. -/
theorem FromAttributeBuffer_invalid_target_witness :
    (FromAttributeBuffer.component exampleLayout exampleOps unmappedRegs exampleAttrs 0
        exampleGarbage 3).cell 31 = F32.finite 0 ∧
    (FromAttributeBuffer.component exampleLayout exampleOps unmappedRegs exampleAttrs 0
        exampleGarbage 3).cell 3 = F32.finite 7 := by
  obtain ⟨h1, h2, -, -⟩ :=
    FromAttributeBuffer_invalid_target exampleLayout exampleOps unmappedRegs exampleAttrs 0 3
      exampleGarbage (by decide)
  exact ⟨h1, h2 3 (by decide)⟩

/-- Whatever the host float, NaN and infinities included, `fmin (fabs x) 1.0f` is a number
between 0 and 1. -/
theorem fmin_fabs_inUnitRange (x : F32) : (fmin (fabs x) F32.one).InUnitRange := by
  cases x with
  | nan => exact ⟨by norm_num, le_refl _⟩
  | negInf => exact ⟨by norm_num, le_refl _⟩
  | posInf => exact ⟨by norm_num, le_refl _⟩
  | finite q => exact ⟨le_min (abs_nonneg q) (by norm_num), min_le_right _ _⟩

/-- C12: for every register set, attribute buffer and initial storage (whatever the mapping,
`vs_output_total = 0`, unmapped colour components, NaN and infinite values included), the
host float handed to `FromFloat32` for each colour component is a number in `[0, 1]`; and
each assembled colour component decodes to a number in `[0, 1]`, given that the `float24`
round trip of a number in `[0, 1]` is a number in `[0, 1]`. -/
theorem FromAttributeBuffer_color_range {float24 : Type} (L : VertexLayout)
    (ops : Float24Ops float24) (regs : Regs) (input : AttributeBuffer float24)
    (uninit : OutputVertex float24) (j : Nat) (hj : j < 4)
    (hconv : ∀ x : F32, x.InUnitRange → (ops.ToFloat32 (ops.FromFloat32 x)).InUnitRange) :
    (fmin (fabs (ops.ToFloat32
        ((FromAttributeBuffer.mapping L ops regs input uninit).cell (L.color + j))))
      F32.one).InUnitRange ∧
    (ops.ToFloat32
      ((FromAttributeBuffer L ops regs input uninit).cell (L.color + j))).InUnitRange := by
  refine ⟨fmin_fabs_inUnitRange _, ?_⟩
  rw [FromAttributeBuffer, FromAttributeBuffer.clamp_color L ops _ j hj]
  exact hconv _ (fmin_fabs_inUnitRange _)

/-- Instance of `FromAttributeBuffer_color_range`: a NaN mapped to color.r and minus
infinity mapped to color.g are both assembled to a number in `[0, 1]`, here `1.0`. -/
theorem FromAttributeBuffer_color_range_witness :
    (exampleOps.ToFloat32
      ((FromAttributeBuffer exampleLayout exampleOps colorRegs extremeAttrs
        exampleGarbage).cell (exampleLayout.color + 0))).InUnitRange ∧
    (FromAttributeBuffer exampleLayout exampleOps colorRegs extremeAttrs
        exampleGarbage).cell 8 = F32.finite 1 ∧
    (FromAttributeBuffer exampleLayout exampleOps colorRegs extremeAttrs
        exampleGarbage).cell 9 = F32.finite 1 := by
  refine ⟨(FromAttributeBuffer_color_range exampleLayout exampleOps colorRegs extremeAttrs
    exampleGarbage 0 (by decide) (fun _ hx => hx)).2, ?_, ?_⟩
  · have h := FromAttributeBuffer.clamp_color exampleLayout exampleOps
      (FromAttributeBuffer.mapping exampleLayout exampleOps colorRegs extremeAttrs
        exampleGarbage) 0 (by decide)
    have hv : (FromAttributeBuffer.mapping exampleLayout exampleOps colorRegs extremeAttrs
        exampleGarbage).cell (exampleLayout.color + 0)
          = FromAttributeBuffer.stored exampleLayout exampleOps colorRegs extremeAttrs 0 0 :=
      FromAttributeBuffer.mapping_last exampleLayout exampleOps colorRegs
        extremeAttrs exampleGarbage 8 0 0 1 (by decide) (by decide) (by decide) (by
          intro i' c' hi' hc' hs
          interval_cases i'
          interval_cases c' <;> first | omega | (revert hs; decide))
    refine Eq.trans h ?_
    rw [hv]
    rfl
  · have h := FromAttributeBuffer.clamp_color exampleLayout exampleOps
      (FromAttributeBuffer.mapping exampleLayout exampleOps colorRegs extremeAttrs
        exampleGarbage) 1 (by decide)
    have hv : (FromAttributeBuffer.mapping exampleLayout exampleOps colorRegs extremeAttrs
        exampleGarbage).cell (exampleLayout.color + 1)
          = FromAttributeBuffer.stored exampleLayout exampleOps colorRegs extremeAttrs 0 1 :=
      FromAttributeBuffer.mapping_last exampleLayout exampleOps colorRegs
        extremeAttrs exampleGarbage 9 0 1 1 (by decide) (by decide) (by decide) (by
          intro i' c' hi' hc' hs
          interval_cases i'
          interval_cases c' <;> first | omega | (revert hs; decide))
    refine Eq.trans h ?_
    rw [hv]
    rfl

end Shader

end Pica
